import Mathlib

/-!
Verification of the TaskM site-analysis backend.

The Python sources are embedded shallowly:

* `src/backend/classifier.py` — classification over exact rationals; a pandas
  `DataFrame` is modelled column-wise (a column is either present or absent),
  and Python exceptions (`ValueError`, `KeyError`) become `Except.error`.
* `src/backend/colocation.py` — co-location grouping over an abstract pairwise
  distance table `d : Fin n → Fin n → ℚ` (the central-angle distances, in
  radians, that the haversine `BallTree` metric computes).  `query_radius` of
  sklearn returns exactly the points at distance ≤ r (inclusive boundary, as
  documented), and scipy's `connected_components` labels two nodes alike
  exactly when they are joined by a path of edges; both library calls are
  modelled by an executable bounded-reachability computation proved equal to
  the reflexive-transitive closure of the adjacency relation.
  Python's builtin `hash` applied to the tuple of sorted member ids is kept
  abstract as a parameter `h : List String → ℤ`, since its value on strings
  depends on the per-process `PYTHONHASHSEED` salt.
* `src/backend/neighbors.py` — neighbour counting for the density estimate.
* `src/backend/spatial_index.py` — `haversine_distance` over the reals.
* the query-parameter validation declared on the `/analyze` endpoint of
  `src/backend/main.py`.
-/

namespace SiteAnalysis

/-! ## Classifier (src/backend/classifier.py) -/

/-- The `thresholds` dict: each of the three keys may be present or absent. -/
structure ThresholdParams where
  rural : Option ℚ
  suburban : Option ℚ
  urban : Option ℚ
deriving DecidableEq

/-- A pandas DataFrame as the classifier sees it: the `density` and
`cluster_id` columns are each either present or absent. -/
structure DataFrame where
  densityCol : Option (List ℚ)
  clusterCol : Option (List String)

/-- Python dict access `thresholds[key]`: raises `KeyError` when absent. -/
def dictGet (key : String) (v : Option ℚ) : Except String ℚ :=
  match v with
  | some x => Except.ok x
  | none => Except.error ("KeyError: " ++ key)

/-- The complete default thresholds dict built when `thresholds is None`
(classifier.py lines 80-86). -/
def defaultThresholds : ThresholdParams :=
  ⟨some 10, some 50, some 200⟩

/-- Final value of one cell after the four masked assignments of
`_classify_threshold` (lines 91-98).  Assignments run in the order Rural,
Suburban, Urban, Dense, and a later assignment overwrites an earlier one, so
the last matching mask wins; a cell matched by no mask keeps its initial
unset value, rendered here as `""`. -/
def thresholdClass (r s u d : ℚ) : String :=
  if u < d then "Dense"
  else if s < d ∧ d ≤ u then "Urban"
  else if r < d ∧ d ≤ s then "Suburban"
  else if d ≤ r then "Rural"
  else ""

/-- `_classify_threshold` (classifier.py lines 72-100).  When a thresholds
dict is supplied, the three keys are looked up as written in the source —
`rural` first, then `suburban`, then `urban` — and a missing key raises
`KeyError`; the defaults are used only when the dict itself is `None`. -/
def _classify_threshold (densities : List ℚ) (thresholds : Option ThresholdParams) :
    Except String (List String) :=
  let t := thresholds.getD defaultThresholds
  match t.rural with
  | none => Except.error "KeyError: rural"
  | some r =>
    match t.suburban with
    | none => Except.error "KeyError: suburban"
    | some s =>
      match t.urban with
      | none => Except.error "KeyError: urban"
      | some u => Except.ok (densities.map (thresholdClass r s u))

/-- `Series.quantile(p)` with the default linear interpolation: on the sorted
values `v₀ ≤ … ≤ v_{m}` it returns `v_lo + (h - lo) * (v_{lo+1} - v_lo)`
where `h = m * p` and `lo = ⌊h⌋`. -/
def quantile (l : List ℚ) (p : ℚ) : ℚ :=
  let s := List.insertionSort (· ≤ ·) l
  match s.length with
  | 0 => 0
  | m + 1 =>
    let hq : ℚ := (m : ℚ) * p
    let lo : ℕ := hq.floor.toNat
    let a := s.getD lo 0
    let b := s.getD (lo + 1) a
    a + (hq - (lo : ℚ)) * (b - a)

/-- Final value of one cell after the four masked assignments of
`_classify_quantile` (lines 62-65), same overwrite semantics as
`thresholdClass`. -/
def quantileClass (q25 q50 q75 d : ℚ) : String :=
  if q75 < d then "Dense"
  else if q50 < d ∧ d ≤ q75 then "Urban"
  else if q25 < d ∧ d ≤ q50 then "Suburban"
  else if d ≤ q25 then "Rural"
  else ""

/-- The densities of the rows whose `cluster_id` equals `c`. -/
def clusterDensities (rows : List (ℚ × String)) (c : String) : List ℚ :=
  (rows.filter (fun y => y.2 = c)).map Prod.fst

/-- `_classify_quantile` (classifier.py lines 40-69): per `cluster_id`
partition, compute Q25/Q50/Q75 of the partition's densities and classify each
row of the partition by the mask cascade.  Each row is assigned exactly once
(by its own cluster's pass), so the result is a per-row map. -/
def _classify_quantile (densities : List ℚ) (clusters : List String) : List String :=
  let rows := densities.zip clusters
  rows.map (fun x =>
    let cd := clusterDensities rows x.2
    quantileClass (quantile cd (1/4)) (quantile cd (1/2)) (quantile cd (3/4)) x.1)

/-- `classify_sites` (classifier.py lines 12-37): the `density` column is
checked first, before dispatching on `mode`; quantile mode then reads the
`cluster_id` column (`df['cluster_id']` raises `KeyError` when the column is
absent); an unknown mode raises `ValueError`. -/
def classify_sites (df : DataFrame) (mode : String) (thresholds : Option ThresholdParams) :
    Except String (List String) :=
  match df.densityCol with
  | none => Except.error "DataFrame must have density column"
  | some ds =>
    if mode = "quantile" then
      match df.clusterCol with
      | none => Except.error "KeyError: cluster_id"
      | some cs => Except.ok (_classify_quantile ds cs)
    else if mode = "threshold" then
      _classify_threshold ds thresholds
    else
      Except.error ("Invalid mode: " ++ mode ++ ". Must be quantile or threshold")

/-! ## API layer (src/backend/main.py) -/

/-- `_parse_classification_thresholds` (main.py lines 55-80): outside
threshold mode, or when no threshold parameter was given, returns `None`;
otherwise builds a dict holding exactly the keys that were supplied. -/
def _parse_classification_thresholds (mode : String) (r s u : Option ℚ) :
    Option ThresholdParams :=
  if mode ≠ "threshold" then none
  else if r = none ∧ s = none ∧ u = none then none
  else some ⟨r, s, u⟩

/-- The query-parameter validation FastAPI performs before the `/analyze`
handler body runs, as declared on main.py lines 108-113:
`radius_km` must satisfy `ge=0.1, le=100.0`, `co_location_threshold_m`
`ge=1.0, le=10000.0`, and `classification_mode` must match the pattern
`quantile|threshold`; a violation rejects the request (HTTP 422). -/
def validate_query (radius_km threshold_m : ℚ) (mode : String) : Except String Unit :=
  if ¬ (1/10 ≤ radius_km ∧ radius_km ≤ 100) then
    Except.error "radius_km out of range"
  else if ¬ (1 ≤ threshold_m ∧ threshold_m ≤ 10000) then
    Except.error "co_location_threshold_m out of range"
  else if ¬ (mode = "quantile" ∨ mode = "threshold") then
    Except.error "classification_mode does not match pattern"
  else Except.ok ()

/-- The `/analyze` handler: FastAPI validates the query parameters, and only
then does the handler body run the processing pipeline (main.py lines
105-140).  The pipeline body is abstracted as `pipeline`. -/
def analyze_sites {E : Type} (pipeline : Unit → E) (radius_km threshold_m : ℚ)
    (mode : String) : Except String E :=
  match validate_query radius_km threshold_m mode with
  | Except.error e => Except.error e
  | Except.ok _ => Except.ok (pipeline ())

/-! ## Spatial conversions (src/backend/spatial_index.py) and
co-location grouping (src/backend/colocation.py)

The pairwise distance table `d : Fin n → Fin n → ℚ` stands for the
central-angle distances, in radians, that the BallTree's haversine metric
computes on the radian coordinates; the physical great-circle distance in
metres between sites `i` and `j` is `d i j * 6371 * 1000`. -/

/-- Earth radius constant of spatial_index.py, as a rational for the exact
unit conversions. -/
def EARTH_RADIUS_KM : ℚ := 6371

/-- `km_to_radians` (spatial_index.py lines 74-84). -/
def km_to_radians (km : ℚ) : ℚ := km / EARTH_RADIUS_KM

/-- The radius, in radians, that `find_co_location_groups` passes to
`query_radius`: `threshold_km = threshold_m / 1000` then `km_to_radians`
(colocation.py lines 36 and 45). -/
def thresholdRad (threshold_m : ℚ) : ℚ := km_to_radians (threshold_m / 1000)

/-- Great-circle distance in metres corresponding to a central angle. -/
def distMeters {n : ℕ} (d : Fin n → Fin n → ℚ) (i j : Fin n) : ℚ :=
  d i j * (EARTH_RADIUS_KM * 1000)

/-- `tree.query_radius(coords, r)`: all points at distance at most `r`
(inclusive boundary, per the sklearn documentation and spec section 4.1). -/
def neighborsWithin {n : ℕ} (d : Fin n → Fin n → ℚ) (r : ℚ) (i : Fin n) :
    Finset (Fin n) :=
  Finset.univ.filter (fun j => d i j ≤ r)

/-- The undirected adjacency relation built in colocation.py lines 50-64:
an edge joins `i` and `j` when `j ≠ i` and `j` lies in the radius query of
`i`, with the edge set symmetrised explicitly. -/
def Adj {n : ℕ} (d : Fin n → Fin n → ℚ) (r : ℚ) (i j : Fin n) : Prop :=
  i ≠ j ∧ (d i j ≤ r ∨ d j i ≤ r)

instance {n : ℕ} (d : Fin n → Fin n → ℚ) (r : ℚ) : DecidableRel (Adj d r) :=
  fun i j => by unfold Adj; infer_instance

/-- One breadth-first expansion step: add every node adjacent to the set. -/
def step {n : ℕ} (d : Fin n → Fin n → ℚ) (r : ℚ) (s : Finset (Fin n)) :
    Finset (Fin n) :=
  s ∪ Finset.univ.filter (fun j => ∃ i ∈ s, Adj d r i j)

/-- Nodes reachable from `i` in at most `k` edge steps. -/
def reachSet {n : ℕ} (d : Fin n → Fin n → ℚ) (r : ℚ) : ℕ → Fin n → Finset (Fin n)
  | 0, i => {i}
  | k + 1, i => step d r (reachSet d r k i)

/-- The connected component containing `i`, as scipy's
`connected_components` labels it: `n` expansion steps saturate on `n`
nodes. -/
def component {n : ℕ} (d : Fin n → Fin n → ℚ) (r : ℚ) (i : Fin n) :
    Finset (Fin n) :=
  reachSet d r n i

/-- Two sites are connected exactly when a path of adjacency edges joins
them. -/
def Connected {n : ℕ} (d : Fin n → Fin n → ℚ) (r : ℚ) (i j : Fin n) : Prop :=
  Relation.ReflTransGen (Adj d r) i j

/-- The sorted member `site_id` list of a component
(colocation.py line 83): collect the ids and sort them. -/
def componentMemberIds {n : ℕ} (siteId : Fin n → String) (c : Finset (Fin n)) :
    List String :=
  List.insertionSort (· ≤ ·) ((c.sort (· ≤ ·)).map siteId)

/-- `group_id` of a site (colocation.py lines 79-87):
`str(hash(tuple(sorted member site_ids)))`, with Python's builtin `hash`
abstracted as `h` because its value on a tuple of strings depends on the
per-process hash salt. -/
def group_id {n : ℕ} (h : List String → ℤ) (siteId : Fin n → String)
    (d : Fin n → Fin n → ℚ) (threshold_m : ℚ) (i : Fin n) : String :=
  toString (h (componentMemberIds siteId (component d (thresholdRad threshold_m) i)))

/-- `group_size` of a site (colocation.py lines 96-98):
`value_counts` of the `group_id` strings, i.e. the number of rows carrying
the same `group_id` string as this row. -/
def group_size {n : ℕ} (h : List String → ℤ) (siteId : Fin n → String)
    (d : Fin n → Fin n → ℚ) (threshold_m : ℚ) (i : Fin n) : ℕ :=
  (Finset.univ.filter
    (fun j => group_id h siteId d threshold_m j = group_id h siteId d threshold_m i)).card

/-- `find_co_location_groups` (colocation.py lines 15-100): the pair of the
per-row `group_id` and `group_size` series. -/
def find_co_location_groups {n : ℕ} (h : List String → ℤ) (siteId : Fin n → String)
    (d : Fin n → Fin n → ℚ) (threshold_m : ℚ) : (Fin n → String) × (Fin n → ℕ) :=
  (group_id h siteId d threshold_m, group_size h siteId d threshold_m)

/-- Membership in the component computed by `find_co_location_groups`. -/
def sameComponent {n : ℕ} (d : Fin n → Fin n → ℚ) (threshold_m : ℚ) (i j : Fin n) :
    Prop :=
  j ∈ component d (thresholdRad threshold_m) i

/-! ## Density estimation (src/backend/neighbors.py) -/

/-- `tree.query_radius(coords, r, count_only=True)` inside `calculate_density`
(neighbors.py lines 39-40): the number of points within `radius_km`
(inclusive), with the radius converted to radians first. -/
def neighbor_count_raw {n : ℕ} (d : Fin n → Fin n → ℚ) (radius_km : ℚ) (i : Fin n) : ℕ :=
  (neighborsWithin d (km_to_radians radius_km) i).card

/-- The numerator of the density value: the raw count minus one for self
(neighbors.py line 43).  The density itself is this integer divided by the
real circle area `π·radius_km²` (line 46-47). -/
def density_numerator {n : ℕ} (d : Fin n → Fin n → ℚ) (radius_km : ℚ) (i : Fin n) : ℤ :=
  (neighbor_count_raw d radius_km i : ℤ) - 1

/-! ## Haversine distance (src/backend/spatial_index.py) -/

noncomputable section

/-- Degree-to-radian conversion `np.radians` (spatial_index.py lines 29-32). -/
def radians (x : ℝ) : ℝ := x * (Real.pi / 180)

/-- The haversine intermediate `a` (spatial_index.py lines 38-41). -/
def hav_a (lat1 lon1 lat2 lon2 : ℝ) : ℝ :=
  Real.sin ((radians lat2 - radians lat1) / 2) ^ 2 +
    Real.cos (radians lat1) * Real.cos (radians lat2) *
      Real.sin ((radians lon2 - radians lon1) / 2) ^ 2

/-- `haversine_distance` (spatial_index.py lines 14-45): `c = 2·arcsin(√a)`
and `distance = EARTH_RADIUS_KM * c` with `EARTH_RADIUS_KM = 6371.0`. -/
def haversine_distance (lat1 lon1 lat2 lon2 : ℝ) : ℝ :=
  6371 * (2 * Real.arcsin (Real.sqrt (hav_a lat1 lon1 lat2 lon2)))

/-- Two latitude/longitude pairs that denote the same point of the sphere:
equal latitudes, and either the common latitude is a pole or the longitudes
agree up to a full 360-degree turn. -/
def SamePoint (lat1 lon1 lat2 lon2 : ℝ) : Prop :=
  lat1 = lat2 ∧
    (lat1 = 90 ∨ lat1 = -90 ∨ lon1 = lon2 ∨ lon1 - lon2 = 360 ∨ lon2 - lon1 = 360)

/-- The unit vector of a point given in radian spherical coordinates. -/
def sphVec (lat lon : ℝ) : EuclideanSpace ℝ (Fin 3) :=
  (WithLp.equiv 2 (Fin 3 → ℝ)).symm
    ![Real.cos lat * Real.cos lon, Real.cos lat * Real.sin lon, Real.sin lat]

end

/-! ## Concrete input tables used for witnesses and counterexamples -/

/-- Two sites at central angle `1/1000` radians (about 6.4 km apart). -/
def dPair : Fin 2 → Fin 2 → ℚ := fun a b => if a = b then 0 else 1/1000

/-- Two sites at identical coordinates: all pairwise distances zero. -/
def dZeroPair : Fin 2 → Fin 2 → ℚ := fun _ _ => 0

/-- Two far-apart sites, central angle `1/10` radians (about 637 km). -/
def dFarPair : Fin 2 → Fin 2 → ℚ := fun a b => if a = b then 0 else 1/10

/-- The trivial distance table of a single-site input. -/
def dOne : Fin 1 → Fin 1 → ℚ := fun _ _ => 0

/-- Site ids `A`, `B` for a two-row table. -/
def idsAB : Fin 2 → String := fun a => if a = 0 then "A" else "B"

/-- A two-row table in which both rows carry the same `site_id` string. -/
def idsAA : Fin 2 → String := fun _ => "A"

/-- Site id of a single-row table. -/
def idsA : Fin 1 → String := fun _ => "A"

/-- A possible per-process behaviour of Python's builtin `hash` on the tuples
of member ids (one process seed). -/
def hashZero : List String → ℤ := fun _ => 0

/-- Another possible per-process behaviour of Python's builtin `hash` (a
different process seed). -/
def hashOne : List String → ℤ := fun _ => 1

/-- A hash behaviour that separates the singleton tuples `("A",)` and
`("B",)`. -/
def hashAB : List String → ℤ := fun l => if l = ["A"] then 0 else 1

/-! ### Reachability: the bounded expansion equals the transitive closure -/

theorem adj_symm {n : ℕ} {d : Fin n → Fin n → ℚ} {r : ℚ} {i j : Fin n}
    (h : Adj d r i j) : Adj d r j i :=
  ⟨h.1.symm, h.2.symm⟩

theorem subset_step {n : ℕ} (d : Fin n → Fin n → ℚ) (r : ℚ) (s : Finset (Fin n)) :
    s ⊆ step d r s :=
  Finset.subset_union_left

theorem reachSet_subset_succ {n : ℕ} (d : Fin n → Fin n → ℚ) (r : ℚ) (k : ℕ)
    (i : Fin n) : reachSet d r k i ⊆ reachSet d r (k + 1) i :=
  subset_step d r (reachSet d r k i)

theorem reachSet_subset_of_le {n : ℕ} (d : Fin n → Fin n → ℚ) (r : ℚ) {k m : ℕ}
    (hkm : k ≤ m) (i : Fin n) : reachSet d r k i ⊆ reachSet d r m i := by
  induction hkm with
  | refl => exact subset_rfl
  | step _ ih => exact ih.trans (reachSet_subset_succ d r _ i)

theorem mem_reachSet_self {n : ℕ} (d : Fin n → Fin n → ℚ) (r : ℚ) (k : ℕ)
    (i : Fin n) : i ∈ reachSet d r k i := by
  induction k with
  | zero => exact Finset.mem_singleton_self i
  | succ k ih => exact subset_step d r _ ih

theorem connected_of_mem_reachSet {n : ℕ} {d : Fin n → Fin n → ℚ} {r : ℚ} {k : ℕ}
    {i j : Fin n} (hj : j ∈ reachSet d r k i) : Connected d r i j := by
  induction k generalizing j with
  | zero =>
    rw [reachSet, Finset.mem_singleton] at hj
    exact hj ▸ Relation.ReflTransGen.refl
  | succ k ih =>
    rw [reachSet, step, Finset.mem_union, Finset.mem_filter] at hj
    rcases hj with hj | ⟨-, m, hm, hadj⟩
    · exact ih hj
    · exact (ih hm).tail hadj

theorem exists_mem_reachSet_of_connected {n : ℕ} {d : Fin n → Fin n → ℚ} {r : ℚ}
    {i j : Fin n} (hc : Connected d r i j) : ∃ k, j ∈ reachSet d r k i := by
  induction hc with
  | refl => exact ⟨0, mem_reachSet_self d r 0 i⟩
  | tail _ hbc ih =>
    obtain ⟨k, hk⟩ := ih
    refine ⟨k + 1, ?_⟩
    rw [reachSet, step, Finset.mem_union, Finset.mem_filter]
    exact Or.inr ⟨Finset.mem_univ _, _, hk, hbc⟩

theorem reachSet_stab {n : ℕ} {d : Fin n → Fin n → ℚ} {r : ℚ} {k : ℕ} {i : Fin n}
    (hst : reachSet d r (k + 1) i = reachSet d r k i) (m : ℕ) :
    reachSet d r (k + m) i = reachSet d r k i := by
  induction m with
  | zero => rfl
  | succ m ih =>
    calc reachSet d r (k + (m + 1)) i
        = step d r (reachSet d r (k + m) i) := rfl
      _ = step d r (reachSet d r k i) := by rw [ih]
      _ = reachSet d r (k + 1) i := rfl
      _ = reachSet d r k i := hst

theorem card_reachSet_of_strict {n : ℕ} {d : Fin n → Fin n → ℚ} {r : ℚ} {k : ℕ}
    {i : Fin n} (hk : ∀ l < k, reachSet d r (l + 1) i ≠ reachSet d r l i) :
    k + 1 ≤ (reachSet d r k i).card := by
  induction k with
  | zero => simp [reachSet]
  | succ k ih =>
    have h1 : k + 1 ≤ (reachSet d r k i).card :=
      ih (fun l hl => hk l (hl.trans (Nat.lt_succ_self k)))
    have hss : reachSet d r k i ⊂ reachSet d r (k + 1) i :=
      Finset.ssubset_iff_subset_ne.mpr
        ⟨reachSet_subset_succ d r k i, Ne.symm (hk k (Nat.lt_succ_self k))⟩
    have h2 := Finset.card_lt_card hss
    omega

theorem mem_component_of_mem_reachSet {n : ℕ} {d : Fin n → Fin n → ℚ} {r : ℚ}
    {k : ℕ} {i j : Fin n} (hj : j ∈ reachSet d r k i) : j ∈ component d r i := by
  by_cases hkn : k ≤ n
  · exact reachSet_subset_of_le d r hkn i hj
  · have hex : ∃ l, l < n ∧ reachSet d r (l + 1) i = reachSet d r l i := by
      by_contra hcon
      push_neg at hcon
      have h1 : n + 1 ≤ (reachSet d r n i).card :=
        card_reachSet_of_strict (fun l hl => hcon l hl)
      have h2 : (reachSet d r n i).card ≤ n := by
        simpa using Finset.card_le_univ (reachSet d r n i)
      omega
    obtain ⟨l, hl, hstab⟩ := hex
    have hlk : l ≤ k := by omega
    have h1 : reachSet d r k i = reachSet d r l i := by
      have h2 := reachSet_stab hstab (k - l)
      rwa [Nat.add_sub_cancel' hlk] at h2
    exact reachSet_subset_of_le d r hl.le i (h1 ▸ hj)

/-- Correctness of the component computation: a site lies in the component of
`i` exactly when a path of adjacency edges connects it to `i` — the
documented semantics of scipy's `connected_components` on the adjacency
matrix built in colocation.py. -/
theorem connected_iff_mem_component {n : ℕ} {d : Fin n → Fin n → ℚ} {r : ℚ}
    {i j : Fin n} : Connected d r i j ↔ j ∈ component d r i :=
  ⟨fun hc => (exists_mem_reachSet_of_connected hc).elim
      (fun _ hk => mem_component_of_mem_reachSet hk),
   fun hm => connected_of_mem_reachSet hm⟩

theorem connected_symm {n : ℕ} {d : Fin n → Fin n → ℚ} {r : ℚ} {i j : Fin n}
    (hc : Connected d r i j) : Connected d r j i := by
  induction hc with
  | refl => exact Relation.ReflTransGen.refl
  | tail _ hbc ih => exact Relation.ReflTransGen.head (adj_symm hbc) ih

instance {n : ℕ} (d : Fin n → Fin n → ℚ) (r : ℚ) (i j : Fin n) :
    Decidable (Connected d r i j) :=
  decidable_of_iff (j ∈ component d r i) connected_iff_mem_component.symm

theorem component_eq_of_connected {n : ℕ} {d : Fin n → Fin n → ℚ} {r : ℚ}
    {i j : Fin n} (hc : Connected d r i j) : component d r i = component d r j := by
  ext x
  rw [← connected_iff_mem_component, ← connected_iff_mem_component]
  exact ⟨fun hix => (connected_symm hc).trans hix, fun hjx => hc.trans hjx⟩

/-- Sites in one component carry the same `group_id` string: the id is a
function of the component's sorted member ids. -/
theorem group_id_eq_of_connected {n : ℕ} {h : List String → ℤ}
    {siteId : Fin n → String} {d : Fin n → Fin n → ℚ} {m : ℚ} {i j : Fin n}
    (hc : Connected d (thresholdRad m) i j) :
    group_id h siteId d m i = group_id h siteId d m j := by
  unfold group_id
  rw [component_eq_of_connected hc]

/-! ### Helper lemmas about components and group ids -/

theorem connected_eq_of_no_adj {n : ℕ} {d : Fin n → Fin n → ℚ} {r : ℚ}
    (hA : ∀ a b : Fin n, ¬ Adj d r a b) {i j : Fin n} (hc : Connected d r i j) :
    i = j := by
  induction hc with
  | refl => rfl
  | tail _ hbc _ => exact absurd hbc (hA _ _)

theorem component_singleton_of_no_adj {n : ℕ} {d : Fin n → Fin n → ℚ} {r : ℚ}
    (hA : ∀ a b : Fin n, ¬ Adj d r a b) (i : Fin n) : component d r i = {i} := by
  ext x
  rw [← connected_iff_mem_component, Finset.mem_singleton]
  constructor
  · intro hc; exact (connected_eq_of_no_adj hA hc).symm
  · intro hx; exact hx ▸ Relation.ReflTransGen.refl

theorem componentMemberIds_singleton {n : ℕ} (siteId : Fin n → String) (i : Fin n) :
    componentMemberIds siteId {i} = [siteId i] := by
  rw [componentMemberIds, Finset.sort_singleton]
  rfl

theorem group_id_of_no_adj {n : ℕ} (h : List String → ℤ) (siteId : Fin n → String)
    {d : Fin n → Fin n → ℚ} {m : ℚ} (hA : ∀ a b : Fin n, ¬ Adj d (thresholdRad m) a b)
    (i : Fin n) : group_id h siteId d m i = toString (h [siteId i]) := by
  rw [group_id, component_singleton_of_no_adj hA, componentMemberIds_singleton]

/-- With a non-positive threshold and strictly positive pairwise distances
there are no adjacency edges. -/
theorem no_adj_of_nonpos_threshold {n : ℕ} {d : Fin n → Fin n → ℚ} {m : ℚ}
    (hm : m ≤ 0) (hpos : ∀ i j : Fin n, i ≠ j → 0 < d i j) (a b : Fin n) :
    ¬ Adj d (thresholdRad m) a b := by
  rintro ⟨hne, hor⟩
  have hr : thresholdRad m ≤ 0 := by
    rw [thresholdRad, km_to_radians, EARTH_RADIUS_KM]
    have h1 : m / 1000 ≤ 0 := div_nonpos_iff.mpr (Or.inr ⟨hm, by norm_num⟩)
    exact div_nonpos_iff.mpr (Or.inr ⟨h1, by norm_num⟩)
  rcases hor with hle | hle
  · exact absurd (lt_of_lt_of_le (hpos a b hne) hle) (not_lt.mpr hr)
  · exact absurd (lt_of_lt_of_le (hpos b a (Ne.symm hne)) hle) (not_lt.mpr hr)

/-- With a strictly negative threshold there are no adjacency edges at all on
a nonnegative distance table — a radius query with a negative radius returns
nothing, even for coincident sites at distance zero. -/
theorem no_adj_of_neg_threshold {n : ℕ} {d : Fin n → Fin n → ℚ} {m : ℚ}
    (hm : m < 0) (hnn : ∀ i j : Fin n, 0 ≤ d i j) (a b : Fin n) :
    ¬ Adj d (thresholdRad m) a b := by
  rintro ⟨-, hor⟩
  have hr : thresholdRad m < 0 := by
    rw [thresholdRad, km_to_radians, EARTH_RADIUS_KM]
    have h1 : m / 1000 < 0 := div_neg_of_neg_of_pos hm (by norm_num)
    exact div_neg_of_neg_of_pos h1 (by norm_num)
  rcases hor with hle | hle
  · exact absurd (lt_of_le_of_lt hle hr) (not_lt.mpr (hnn a b))
  · exact absurd (lt_of_le_of_lt hle hr) (not_lt.mpr (hnn b a))

/-- On a one-row table there are no adjacency edges at all. -/
theorem no_adj_of_one_row {d : Fin 1 → Fin 1 → ℚ} {r : ℚ} (a b : Fin 1) :
    ¬ Adj d r a b := by
  rintro ⟨hne, -⟩
  exact hne (Subsingleton.elim a b)

/-- The two far-apart example sites are not adjacent at a 100 m threshold. -/
theorem no_adj_dFarPair (a b : Fin 2) : ¬ Adj dFarPair (thresholdRad 100) a b := by
  rintro ⟨hne, hor⟩
  have h1 : dFarPair a b = 1/10 := by rw [dFarPair]; exact if_neg hne
  have h2 : dFarPair b a = 1/10 := by rw [dFarPair]; exact if_neg (Ne.symm hne)
  rcases hor with hle | hle
  · rw [h1, thresholdRad, km_to_radians, EARTH_RADIUS_KM] at hle; norm_num at hle
  · rw [h2, thresholdRad, km_to_radians, EARTH_RADIUS_KM] at hle; norm_num at hle

/-- Exact unit conversion: the metre distance is at most `threshold_m` exactly
when the central angle is at most the radius handed to `query_radius`. -/
theorem distMeters_le_iff {n : ℕ} {d : Fin n → Fin n → ℚ} {m : ℚ} {i j : Fin n} :
    distMeters d i j ≤ m ↔ d i j ≤ thresholdRad m := by
  rw [distMeters, thresholdRad, km_to_radians, EARTH_RADIUS_KM, div_div]
  rw [le_div_iff₀ (by norm_num : (0:ℚ) < 1000 * 6371)]
  constructor
  · intro hle; calc d i j * (1000 * 6371) = d i j * (6371 * 1000) := by ring
      _ ≤ m := hle
  · intro hle; calc d i j * (6371 * 1000) = d i j * (1000 * 6371) := by ring
      _ ≤ m := hle

/-- A chain of sites, each consecutive pair within `threshold_m` metres,
connects its first and last elements. -/
theorem connected_of_meters_chain {n : ℕ} {d : Fin n → Fin n → ℚ} {m : ℚ} :
    ∀ (x : Fin n) (l : List (Fin n)),
      List.Chain (fun a b => distMeters d a b ≤ m) x l →
      Connected d (thresholdRad m) x ((x :: l).getLast (List.cons_ne_nil x l)) := by
  intro x l
  induction l generalizing x with
  | nil => intro _; exact Relation.ReflTransGen.refl
  | cons b t ih =>
    intro hch
    obtain ⟨hxb, hbt⟩ := List.chain_cons.mp hch
    have h1 : Connected d (thresholdRad m) x b := by
      rcases eq_or_ne x b with hxb' | hxb'
      · exact hxb' ▸ Relation.ReflTransGen.refl
      · exact Relation.ReflTransGen.single ⟨hxb', Or.inl (distMeters_le_iff.mp hxb)⟩
    have h2 := ih b hbt
    rw [List.getLast_cons_cons]
    exact h1.trans h2

/-! ### Claim C2 -/

/-- C2: two sites are placed in the same co-location group (the same
connected component computed by `find_co_location_groups` at threshold
`threshold_m`) precisely when some chain of sites of that group joins them
with each consecutive pair within `threshold_m` metres of each other —
connected-components semantics, not pairwise/clique closeness. -/
theorem C2_same_group_iff_chain {n : ℕ} {d : Fin n → Fin n → ℚ} {threshold_m : ℚ}
    (hsymm : ∀ a b, d a b = d b a) (i j : Fin n) :
    sameComponent d threshold_m i j ↔
      ∃ l : List (Fin n),
        List.Chain (fun a b => distMeters d a b ≤ threshold_m) i l ∧
        (i :: l).getLast (List.cons_ne_nil i l) = j ∧
        ∀ v ∈ i :: l, sameComponent d threshold_m i v := by
  constructor
  · intro hs
    have hc : Connected d (thresholdRad threshold_m) i j :=
      connected_iff_mem_component.mpr hs
    obtain ⟨l, hch, hlast⟩ := List.exists_chain_of_relationReflTransGen hc
    have hmem : ∀ v ∈ i :: l, sameComponent d threshold_m i v := by
      intro v hv
      rcases List.mem_cons.mp hv with hv | hv
      · subst hv; exact mem_reachSet_self d (thresholdRad threshold_m) n v
      · have hall := List.Chain.induction
          (fun x => Connected d (thresholdRad threshold_m) i x) l hch
          (fun x y hxy hx => hx.tail hxy) Relation.ReflTransGen.refl
        exact connected_iff_mem_component.mp (hall v hv)
    refine ⟨l, ?_, hlast, hmem⟩
    refine hch.imp (fun a b hab => distMeters_le_iff.mpr ?_)
    rcases hab.2 with hle | hle
    · exact hle
    · rw [hsymm a b]; exact hle
  · rintro ⟨l, hch, hlast, -⟩
    have hc := connected_of_meters_chain i l hch
    rw [hlast] at hc
    exact connected_iff_mem_component.mp hc

/-- Witness for C2 at a concrete symmetric two-site table. -/
theorem C2_same_group_iff_chain_witness :
    sameComponent dPair 100 0 1 ↔
      ∃ l : List (Fin 2),
        List.Chain (fun a b => distMeters dPair a b ≤ 100) 0 l ∧
        ((0 : Fin 2) :: l).getLast (List.cons_ne_nil 0 l) = 1 ∧
        ∀ v ∈ (0 : Fin 2) :: l, sameComponent dPair 100 0 v :=
  C2_same_group_iff_chain
    (fun a b => by
      simp only [dPair]
      rcases eq_or_ne a b with hab | hab
      · rw [hab]
      · rw [if_neg hab, if_neg (Ne.symm hab)]) 0 1

/-! ### Claim C3 -/

/-- C3 counterexample: with `threshold_m = 0` and two distinct sites at
identical coordinates, `find_co_location_groups` places both sites into one
group of size 2 — not into singleton groups of size 1 as the claim states —
because `query_radius` uses an inclusive boundary and the zero-distance
neighbour is a real edge. -/
theorem C3_counterexample_zero_threshold :
    (find_co_location_groups hashZero idsAB dZeroPair 0).2 0 = 2 := by decide

/-- C3 (amended): with a strictly negative threshold (distances are
nonnegative, so even coincident duplicate-coordinate sites get no edge) — or
a non-positive threshold combined with strictly positive distances between
distinct sites — or a one-row input, every site forms its own singleton
component; its `group_size` is 1 and its `group_id` differs from every other
site's, provided the hashed singleton id strings are pairwise distinct.  The
empty input yields the empty result (vacuously: there is no site).  Only the
case `threshold_m = 0` with coincident distinct sites, shown in the
counterexample, escapes the singleton behaviour. -/
theorem C3_amended_singletons {n : ℕ} (h : List String → ℤ)
    (siteId : Fin n → String) (d : Fin n → Fin n → ℚ) (threshold_m : ℚ)
    (hcase : (threshold_m < 0 ∧ ∀ i j : Fin n, 0 ≤ d i j) ∨
      (threshold_m ≤ 0 ∧ ∀ i j : Fin n, i ≠ j → 0 < d i j) ∨ n = 1)
    (hids : ∀ i j : Fin n, i ≠ j → toString (h [siteId i]) ≠ toString (h [siteId j]))
    (i : Fin n) :
    component d (thresholdRad threshold_m) i = {i} ∧
    (find_co_location_groups h siteId d threshold_m).2 i = 1 ∧
    (∀ j, j ≠ i →
      (find_co_location_groups h siteId d threshold_m).1 j ≠
        (find_co_location_groups h siteId d threshold_m).1 i) := by
  have hA : ∀ a b : Fin n, ¬ Adj d (thresholdRad threshold_m) a b := by
    rcases hcase with ⟨hm, hnn⟩ | ⟨hm, hpos⟩ | hn
    · exact no_adj_of_neg_threshold hm hnn
    · exact no_adj_of_nonpos_threshold hm hpos
    · subst hn; exact fun a b => no_adj_of_one_row a b
  have hgid : ∀ j, group_id h siteId d threshold_m j = toString (h [siteId j]) :=
    group_id_of_no_adj h siteId hA
  refine ⟨component_singleton_of_no_adj hA i, ?_, ?_⟩
  · show group_size h siteId d threshold_m i = 1
    rw [group_size]
    have hf : (Finset.univ.filter (fun j =>
        group_id h siteId d threshold_m j = group_id h siteId d threshold_m i)) = {i} := by
      ext j
      simp only [Finset.mem_filter, Finset.mem_univ, true_and, Finset.mem_singleton]
      constructor
      · intro hj
        by_contra hji
        rw [hgid j, hgid i] at hj
        exact hids j i hji hj
      · intro hj; rw [hj]
    rw [hf, Finset.card_singleton]
  · intro j hji
    show group_id h siteId d threshold_m j ≠ group_id h siteId d threshold_m i
    rw [hgid j, hgid i]
    exact hids j i hji

/-- Witness for the amended C3: a negative threshold on two distinct sites
at identical coordinates (all distances zero) still yields singleton groups. -/
theorem C3_amended_singletons_witness :
    component dZeroPair (thresholdRad (-1)) 0 = {0} ∧
    (find_co_location_groups hashAB idsAB dZeroPair (-1)).2 0 = 1 ∧
    (∀ j, j ≠ (0 : Fin 2) →
      (find_co_location_groups hashAB idsAB dZeroPair (-1)).1 j ≠
        (find_co_location_groups hashAB idsAB dZeroPair (-1)).1 0) :=
  C3_amended_singletons hashAB idsAB dZeroPair (-1)
    (Or.inl ⟨by norm_num, fun _ _ => le_refl 0⟩)
    (by decide) 0

/-! ### Claim C6 -/

/-- C6 counterexample: two distinct rows carrying the same `site_id` string
placed in two different (far apart) connected components hash to the same
`group_id`, so `value_counts` merges them: each site's reported `group_size`
is 2 although its connected component has exactly 1 member. -/
theorem C6_counterexample_duplicate_site_ids :
    (find_co_location_groups hashZero idsAA dFarPair 100).2 0 = 2 ∧
    (component dFarPair (thresholdRad 100) (0 : Fin 2)).card = 1 := by
  constructor
  · decide
  · rw [component_singleton_of_no_adj no_adj_dFarPair, Finset.card_singleton]

/-- C6 (amended): provided distinct components receive distinct `group_id`
strings (in particular whenever the site ids are pairwise distinct and the
hash does not collide on them), each site's `group_size` equals the member
count of its connected component, two sites share a `group_id` exactly when
they are connected, sites sharing a `group_id` share the `group_size`, and
the sum over all sites of `group_size · (1/group_size)` equals the row
count. -/
theorem C6_amended_group_sizes {n : ℕ} (h : List String → ℤ)
    (siteId : Fin n → String) (d : Fin n → Fin n → ℚ) (threshold_m : ℚ)
    (hinj : ∀ i j : Fin n,
      group_id h siteId d threshold_m i = group_id h siteId d threshold_m j →
      Connected d (thresholdRad threshold_m) i j) :
    (∀ i, (find_co_location_groups h siteId d threshold_m).2 i =
        (component d (thresholdRad threshold_m) i).card) ∧
    (∀ i j, (find_co_location_groups h siteId d threshold_m).1 i =
        (find_co_location_groups h siteId d threshold_m).1 j ↔
        Connected d (thresholdRad threshold_m) i j) ∧
    (∀ i j, (find_co_location_groups h siteId d threshold_m).1 i =
        (find_co_location_groups h siteId d threshold_m).1 j →
        (find_co_location_groups h siteId d threshold_m).2 i =
        (find_co_location_groups h siteId d threshold_m).2 j) ∧
    (∑ i : Fin n, ((find_co_location_groups h siteId d threshold_m).2 i : ℚ) *
        (1 / ((find_co_location_groups h siteId d threshold_m).2 i : ℚ)) = n) := by
  have hfilter : ∀ i : Fin n, (Finset.univ.filter (fun j =>
      group_id h siteId d threshold_m j = group_id h siteId d threshold_m i)) =
      component d (thresholdRad threshold_m) i := by
    intro i
    ext j
    simp only [Finset.mem_filter, Finset.mem_univ, true_and]
    rw [← connected_iff_mem_component]
    constructor
    · intro hj; exact connected_symm (hinj j i hj)
    · intro hc; exact group_id_eq_of_connected (connected_symm hc)
  have hsize : ∀ i, group_size h siteId d threshold_m i =
      (component d (thresholdRad threshold_m) i).card := by
    intro i; rw [group_size, hfilter i]
  have hposs : ∀ i, 0 < group_size h siteId d threshold_m i := by
    intro i
    rw [group_size, Finset.card_pos]
    exact ⟨i, by simp⟩
  refine ⟨hsize, ?_, ?_, ?_⟩
  · intro i j
    exact ⟨hinj i j, fun hc => group_id_eq_of_connected hc⟩
  · intro i j hij
    show group_size h siteId d threshold_m i = group_size h siteId d threshold_m j
    rw [hsize i, hsize j, component_eq_of_connected (hinj i j hij)]
  · have h1 : ∀ i : Fin n, ((group_size h siteId d threshold_m i : ℚ)) *
        (1 / (group_size h siteId d threshold_m i : ℚ)) = 1 := by
      intro i
      have hne : ((group_size h siteId d threshold_m i : ℚ)) ≠ 0 := by
        exact_mod_cast (hposs i).ne'
      field_simp
    calc ∑ i : Fin n, ((find_co_location_groups h siteId d threshold_m).2 i : ℚ) *
          (1 / ((find_co_location_groups h siteId d threshold_m).2 i : ℚ))
        = ∑ _i : Fin n, (1 : ℚ) := Finset.sum_congr rfl (fun i _ => h1 i)
      _ = n := by simp

/-- Witness for the amended C6 at a concrete two-component table with
distinct site ids and a hash separating them. -/
theorem C6_amended_group_sizes_witness :
    (∀ i, (find_co_location_groups hashAB idsAB dFarPair 100).2 i =
        (component dFarPair (thresholdRad 100) i).card) ∧
    (∀ i j, (find_co_location_groups hashAB idsAB dFarPair 100).1 i =
        (find_co_location_groups hashAB idsAB dFarPair 100).1 j ↔
        Connected dFarPair (thresholdRad 100) i j) ∧
    (∀ i j, (find_co_location_groups hashAB idsAB dFarPair 100).1 i =
        (find_co_location_groups hashAB idsAB dFarPair 100).1 j →
        (find_co_location_groups hashAB idsAB dFarPair 100).2 i =
        (find_co_location_groups hashAB idsAB dFarPair 100).2 j) ∧
    (∑ i : Fin 2, ((find_co_location_groups hashAB idsAB dFarPair 100).2 i : ℚ) *
        (1 / ((find_co_location_groups hashAB idsAB dFarPair 100).2 i : ℚ)) = 2) := by
  have hw := C6_amended_group_sizes hashAB idsAB dFarPair 100 (by
    intro i j hij
    have hgid : ∀ k, group_id hashAB idsAB dFarPair 100 k = toString (hashAB [idsAB k]) :=
      group_id_of_no_adj hashAB idsAB no_adj_dFarPair
    rw [hgid i, hgid j] at hij
    have hijeq : i = j := by
      fin_cases i <;> fin_cases j <;> first | rfl | exact absurd hij (by decide)
    subst hijeq
    exact Relation.ReflTransGen.refl)
  exact_mod_cast hw

/-! ### Claim C1 -/

/-- C1 (code evaluation): the `group_id` that `find_co_location_groups`
assigns is `str(h(sorted member site_ids))` where `h` is the running
process's builtin string-tuple hash; consequently two processes whose hash
functions differ on the member tuple — which Python's per-process hash
randomisation produces — emit different `group_id`s for identical input and
parameters. -/
theorem C1_group_id_depends_on_process_hash :
    (∀ h : List String → ℤ,
      (find_co_location_groups h idsA dOne 100).1 0 = toString (h ["A"])) ∧
    (∃ h₁ h₂ : List String → ℤ,
      (find_co_location_groups h₁ idsA dOne 100).1 0 ≠
        (find_co_location_groups h₂ idsA dOne 100).1 0) := by
  constructor
  · intro h
    exact group_id_of_no_adj h idsA (fun a b => no_adj_of_one_row a b) 0
  · exact ⟨hashZero, hashOne, by decide⟩

/-! ### Claim C5 -/

/-- C5: `calculate_density` assigns each site the count of points within
`radius_km` (inclusive) minus one for self, divided by the circle area
`π·radius_km²`; every density value is nonnegative, and on a one-row table
the density is zero (the zero-row table has no site, so the statement is
vacuous there). -/
theorem C5_density_formula_nonneg {n : ℕ} (d : Fin n → Fin n → ℚ) (radius_km : ℚ)
    (hr : 0 < radius_km) (hself : ∀ i, d i i = 0) (i : Fin n) :
    (density_numerator d radius_km i : ℝ) / (Real.pi * (radius_km : ℝ) ^ 2)
      = ((neighbor_count_raw d radius_km i : ℝ) - 1) /
          (Real.pi * (radius_km : ℝ) ^ 2) ∧
    0 ≤ (density_numerator d radius_km i : ℝ) / (Real.pi * (radius_km : ℝ) ^ 2) ∧
    (n = 1 →
      (density_numerator d radius_km i : ℝ) / (Real.pi * (radius_km : ℝ) ^ 2) = 0) := by
  have hmem : i ∈ neighborsWithin d (km_to_radians radius_km) i := by
    rw [neighborsWithin, Finset.mem_filter]
    refine ⟨Finset.mem_univ i, ?_⟩
    rw [hself i, km_to_radians, EARTH_RADIUS_KM]
    exact div_nonneg hr.le (by norm_num)
  have hcount : 1 ≤ neighbor_count_raw d radius_km i := by
    rw [neighbor_count_raw]
    exact Finset.card_pos.mpr ⟨i, hmem⟩
  have harea : (0:ℝ) < Real.pi * (radius_km : ℝ) ^ 2 := by
    have hr' : (0:ℝ) < (radius_km : ℝ) := by exact_mod_cast hr
    positivity
  refine ⟨?_, ?_, ?_⟩
  · rw [density_numerator]; push_cast; ring
  · apply div_nonneg _ harea.le
    have h1 : (1:ℝ) ≤ (neighbor_count_raw d radius_km i : ℝ) := by exact_mod_cast hcount
    rw [density_numerator]
    push_cast
    linarith
  · intro hn
    subst hn
    have hle : neighbor_count_raw d radius_km i ≤ 1 := by
      rw [neighbor_count_raw]
      calc (neighborsWithin d (km_to_radians radius_km) i).card
          ≤ Finset.univ.card := Finset.card_le_univ _
        _ = 1 := by simp
    have heq : neighbor_count_raw d radius_km i = 1 := le_antisymm hle hcount
    rw [density_numerator, heq]
    norm_num

/-- Witness for C5 on the one-row table with radius 2 km. -/
theorem C5_density_formula_nonneg_witness :
    ((density_numerator dOne 2 0 : ℝ) / (Real.pi * ((2:ℚ) : ℝ) ^ 2)
      = ((neighbor_count_raw dOne 2 0 : ℝ) - 1) / (Real.pi * ((2:ℚ) : ℝ) ^ 2)) ∧
    (0 ≤ (density_numerator dOne 2 0 : ℝ) / (Real.pi * ((2:ℚ) : ℝ) ^ 2)) ∧
    ((1:ℕ) = 1 →
      (density_numerator dOne 2 0 : ℝ) / (Real.pi * ((2:ℚ) : ℝ) ^ 2) = 0) :=
  C5_density_formula_nonneg dOne 2 (by norm_num) (fun _ => rfl) 0

/-! ### Claim C4 -/

/-- C4 (code evaluation): the API keeps only the supplied threshold keys
(`rural` here), and `classify_sites` in threshold mode then fails with
`KeyError` on the first missing key (`suburban`) instead of falling back to
the documented per-key defaults 50.0 and 200.0. -/
theorem C4_partial_thresholds_keyerror :
    _parse_classification_thresholds "threshold" (some 5) none none =
      some ⟨some 5, none, none⟩ ∧
    classify_sites ⟨some [0], some ["c"]⟩ "threshold" (some ⟨some 5, none, none⟩) =
      Except.error "KeyError: suburban" :=
  ⟨rfl, rfl⟩

/-! ### Claim C8 -/

/-- pandas `quantile` of a one-element series is that element, for any `p`. -/
theorem quantile_singleton (x p : ℚ) : quantile [x] p = x := by
  rw [quantile]
  simp [List.insertionSort, List.orderedInsert]
  rfl

/-- The cascade classifies the single value of a singleton partition as
Rural: all three cut points equal the value itself. -/
theorem classify_quantile_singleton (x : ℚ) (c : String) :
    _classify_quantile [x] [c] = ["Rural"] := by
  have hcd : clusterDensities [(x, c)] c = [x] := by
    simp [clusterDensities]
  simp only [_classify_quantile, List.zip, List.zipWith, List.map]
  rw [hcd, quantile_singleton, quantile_singleton, quantile_singleton, quantileClass]
  simp

/-- C8: in threshold mode ties at cut points go to the lower class
(inclusive upper bounds): `d ≤ rural → Rural`, `(rural, suburban] →
Suburban`, `(suburban, urban] → Urban`, `> urban → Dense`; and in quantile
mode a partition of size one has Q25 = Q50 = Q75 equal to its single density
value, and that site is classified Rural. -/
theorem C8_tie_breaking (r s u : ℚ) (hrs : r ≤ s) (hsu : s ≤ u) :
    (∀ d : ℚ,
      (d ≤ r → thresholdClass r s u d = "Rural") ∧
      (r < d ∧ d ≤ s → thresholdClass r s u d = "Suburban") ∧
      (s < d ∧ d ≤ u → thresholdClass r s u d = "Urban") ∧
      (u < d → thresholdClass r s u d = "Dense")) ∧
    (∀ (x : ℚ) (c : String), quantile [x] (1/4) = x ∧ quantile [x] (1/2) = x ∧
      quantile [x] (3/4) = x ∧ _classify_quantile [x] [c] = ["Rural"]) := by
  constructor
  · intro d
    refine ⟨?_, ?_, ?_, ?_⟩
    · intro hd
      unfold thresholdClass
      split_ifs with h1 h2 h3
      · linarith
      · linarith [h2.1]
      · linarith [h3.1]
      · rfl
    · rintro ⟨hd1, hd2⟩
      unfold thresholdClass
      split_ifs with h1 h2 h3 h4
      · linarith
      · linarith [h2.1]
      · rfl
      · exact absurd ⟨hd1, hd2⟩ h3
      · exact absurd ⟨hd1, hd2⟩ h3
    · rintro ⟨hd1, hd2⟩
      unfold thresholdClass
      split_ifs with h1 h2 h3 h4
      · linarith
      · rfl
      · exact absurd ⟨hd1, hd2⟩ h2
      · exact absurd ⟨hd1, hd2⟩ h2
      · exact absurd ⟨hd1, hd2⟩ h2
    · intro hd
      unfold thresholdClass
      split_ifs
      rfl
  · intro x c
    exact ⟨quantile_singleton x _, quantile_singleton x _, quantile_singleton x _,
      classify_quantile_singleton x c⟩

/-- Witness for C8 at the default cut points 10/50/200. -/
theorem C8_tie_breaking_witness :
    (∀ d : ℚ,
      (d ≤ 10 → thresholdClass 10 50 200 d = "Rural") ∧
      (10 < d ∧ d ≤ 50 → thresholdClass 10 50 200 d = "Suburban") ∧
      (50 < d ∧ d ≤ 200 → thresholdClass 10 50 200 d = "Urban") ∧
      (200 < d → thresholdClass 10 50 200 d = "Dense")) ∧
    (∀ (x : ℚ) (c : String), quantile [x] (1/4) = x ∧ quantile [x] (1/2) = x ∧
      quantile [x] (3/4) = x ∧ _classify_quantile [x] [c] = ["Rural"]) :=
  C8_tie_breaking 10 50 200 (by norm_num) (by norm_num)

/-! ### Claim C9 -/

/-- When the classification mode matches neither alternative of the pattern,
or the radius is non-positive (hence below the declared minimum 0.1), the
query validation rejects the request. -/
theorem validate_query_error (radius_km threshold_m : ℚ) (mode : String)
    (hbad : (mode ≠ "quantile" ∧ mode ≠ "threshold") ∨ radius_km ≤ 0) :
    ∃ e, validate_query radius_km threshold_m mode = Except.error e := by
  rw [validate_query]
  split_ifs with h1 h2 h3 <;>
    first
      | exact ⟨_, rfl⟩
      | (refine ⟨"", ?_⟩
         rcases hbad with ⟨hq, ht⟩ | hr
         · rcases h3 with h | h
           · exact hq h
           · exact ht h
         · linarith [h1.1])

/-- C9: an invalid classification mode, or a non-positive `radius_km`, is
rejected before the pipeline body ever runs — the request results in an
error and no enriched table, for every possible pipeline body — and
`classify_sites` itself raises the invalid-mode `ValueError` on any mode
that is neither `quantile` nor `threshold`. -/
theorem C9_invalid_params_rejected (radius_km threshold_m : ℚ) (mode : String)
    (hbad : (mode ≠ "quantile" ∧ mode ≠ "threshold") ∨ radius_km ≤ 0) :
    (∀ (E : Type) (pipeline : Unit → E),
      ∃ e, analyze_sites pipeline radius_km threshold_m mode = Except.error e) ∧
    (∀ (df : DataFrame) (th : Option ThresholdParams),
      mode ≠ "quantile" → mode ≠ "threshold" →
      ∃ e, classify_sites df mode th = Except.error e) := by
  constructor
  · intro E pipeline
    obtain ⟨e, he⟩ := validate_query_error radius_km threshold_m mode hbad
    exact ⟨e, by rw [analyze_sites, he]⟩
  · intro df th hq ht
    rcases df with ⟨dc, cc⟩
    cases dc with
    | none => exact ⟨_, rfl⟩
    | some ds =>
      simp only [classify_sites]
      rw [if_neg hq, if_neg ht]
      exact ⟨_, rfl⟩

/-- Witness for C9 at a concrete invalid mode. -/
theorem C9_invalid_params_rejected_witness :
    (∀ (E : Type) (pipeline : Unit → E),
      ∃ e, analyze_sites pipeline (5:ℚ) 100 "bogus" = Except.error e) ∧
    (∀ (df : DataFrame) (th : Option ThresholdParams),
      "bogus" ≠ "quantile" → "bogus" ≠ "threshold" →
      ∃ e, classify_sites df "bogus" th = Except.error e) :=
  C9_invalid_params_rejected 5 100 "bogus" (Or.inl ⟨by decide, by decide⟩)

/-! ### Claim C10 -/

/-- C10 counterexample: with a `density` column present but no `cluster_id`
column, quantile mode raises `KeyError` — refuting the claim that
`classify_sites` never raises in quantile mode once `density` exists. -/
theorem C10_counterexample_quantile_missing_cluster :
    classify_sites ⟨some [1], none⟩ "quantile" none =
      Except.error "KeyError: cluster_id" := rfl

/-- C10 (amended): a missing `density` column raises the `ValueError` before
the mode dispatch, for every mode including invalid ones; with `density`
present, `classify_sites` never raises in threshold mode with a complete
thresholds map, and never raises in quantile mode provided the `cluster_id`
column is also present. -/
theorem C10_density_check_first :
    (∀ (df : DataFrame) (mode : String) (th : Option ThresholdParams),
      df.densityCol = none →
      classify_sites df mode th = Except.error "DataFrame must have density column") ∧
    (∀ (ds : List ℚ) (cs : List String) (th : Option ThresholdParams),
      ∃ out, classify_sites ⟨some ds, some cs⟩ "quantile" th = Except.ok out) ∧
    (∀ (ds : List ℚ) (cl : Option (List String)) (a b c : ℚ),
      ∃ out, classify_sites ⟨some ds, cl⟩ "threshold" (some ⟨some a, some b, some c⟩) =
        Except.ok out) := by
  refine ⟨?_, ?_, ?_⟩
  · intro df mode th hdf
    rcases df with ⟨dc, cc⟩
    have hdc : dc = none := hdf
    subst hdc
    rfl
  · intro ds cs th
    exact ⟨_classify_quantile ds cs, rfl⟩
  · intro ds cl a b c
    exact ⟨ds.map (thresholdClass a b c), rfl⟩

/-- Witness for the amended C10 at concrete tables. -/
theorem C10_density_check_first_witness :
    classify_sites ⟨none, some ["c"]⟩ "bogus" none =
      Except.error "DataFrame must have density column" ∧
    (∃ out, classify_sites ⟨some [1], some ["c"]⟩ "quantile" none = Except.ok out) ∧
    (∃ out, classify_sites ⟨some [1], none⟩ "threshold"
      (some ⟨some 1, some 2, some 3⟩) = Except.ok out) :=
  ⟨C10_density_check_first.1 ⟨none, some ["c"]⟩ "bogus" none rfl,
   C10_density_check_first.2.1 [1] ["c"] none,
   C10_density_check_first.2.2 [1] none 1 2 3⟩

/-! ### Claim C7: haversine distance -/

/-- Half-angle identity in the form the haversine uses. -/
theorem sin_sq_half_eq (x : ℝ) : Real.sin (x / 2) ^ 2 = (1 - Real.cos x) / 2 := by
  have hx : 2 * (x / 2) = x := by ring
  have h1 := Real.cos_two_mul (x / 2)
  rw [hx] at h1
  have h2 := Real.sin_sq_add_cos_sq (x / 2)
  linarith

theorem radians_le_radians {x y : ℝ} (hxy : x ≤ y) : radians x ≤ radians y := by
  rw [radians, radians]
  have hpos : 0 ≤ Real.pi / 180 := by positivity
  exact mul_le_mul_of_nonneg_right hxy hpos

theorem radians_inj {x y : ℝ} (hxy : radians x = radians y) : x = y := by
  rw [radians, radians] at hxy
  have hne : Real.pi / 180 ≠ 0 := by positivity
  exact mul_right_cancel₀ hne hxy

theorem radians_90 : radians 90 = Real.pi / 2 := by rw [radians]; ring

theorem radians_neg90 : radians (-90) = -(Real.pi / 2) := by rw [radians]; ring

theorem radians_sub (x y : ℝ) : radians x - radians y = radians (x - y) := by
  rw [radians, radians, radians]; ring

theorem norm_sphVec (lat lon : ℝ) : ‖sphVec lat lon‖ = 1 := by
  rw [sphVec, EuclideanSpace.norm_eq]
  have hsum : ∑ i : Fin 3,
      ‖(WithLp.equiv 2 (Fin 3 → ℝ)).symm
        ![Real.cos lat * Real.cos lon, Real.cos lat * Real.sin lon, Real.sin lat] i‖ ^ 2
      = 1 := by
    simp only [WithLp.equiv_symm_pi_apply, Fin.sum_univ_three,
      Matrix.cons_val_zero, Matrix.cons_val_one, Matrix.head_cons,
      Matrix.cons_val_two, Matrix.tail_cons, Real.norm_eq_abs, sq_abs]
    have h1 := Real.sin_sq_add_cos_sq lon
    have h2 := Real.sin_sq_add_cos_sq lat
    calc (Real.cos lat * Real.cos lon) ^ 2 + (Real.cos lat * Real.sin lon) ^ 2 +
          Real.sin lat ^ 2
        = Real.cos lat ^ 2 * (Real.sin lon ^ 2 + Real.cos lon ^ 2) + Real.sin lat ^ 2 := by
          ring
      _ = Real.cos lat ^ 2 + Real.sin lat ^ 2 := by rw [h1]; ring
      _ = 1 := by linarith
  rw [hsum, Real.sqrt_one]

theorem inner_sphVec (lat1 lon1 lat2 lon2 : ℝ) :
    inner (sphVec lat1 lon1) (sphVec lat2 lon2) =
      (Real.sin lat1 * Real.sin lat2 +
        Real.cos lat1 * Real.cos lat2 * Real.cos (lon2 - lon1) : ℝ) := by
  rw [sphVec, sphVec, PiLp.inner_apply]
  simp only [WithLp.equiv_symm_pi_apply, Fin.sum_univ_three,
    Matrix.cons_val_zero, Matrix.cons_val_one, Matrix.head_cons,
    Matrix.cons_val_two, Matrix.tail_cons, RCLike.inner_apply, conj_trivial]
  rw [Real.cos_sub]
  ring

theorem abs_inner_sphVec_le_one (lat1 lon1 lat2 lon2 : ℝ) :
    |(inner (sphVec lat1 lon1) (sphVec lat2 lon2) : ℝ)| ≤ 1 := by
  have h := abs_real_inner_le_norm (sphVec lat1 lon1) (sphVec lat2 lon2)
  rwa [norm_sphVec, norm_sphVec, mul_one] at h

/-- The haversine intermediate equals `(1 - cos θ)/2` for the central angle
`θ` between the two unit vectors. -/
theorem hav_a_eq_inner (lat1 lon1 lat2 lon2 : ℝ) :
    hav_a lat1 lon1 lat2 lon2 =
      (1 - (inner (sphVec (radians lat1) (radians lon1))
              (sphVec (radians lat2) (radians lon2)) : ℝ)) / 2 := by
  rw [hav_a, inner_sphVec, sin_sq_half_eq, sin_sq_half_eq, Real.cos_sub]
  ring

/-- For `c ∈ [-1, 1]`, `2·arcsin(√((1-c)/2)) = arccos c`. -/
theorem two_arcsin_sqrt_eq_arccos {c : ℝ} (h1 : -1 ≤ c) (h2 : c ≤ 1) :
    2 * Real.arcsin (Real.sqrt ((1 - c) / 2)) = Real.arccos c := by
  have hθ0 : 0 ≤ Real.arccos c := Real.arccos_nonneg c
  have hθπ : Real.arccos c ≤ Real.pi := Real.arccos_le_pi c
  have hcos : Real.cos (Real.arccos c) = c := Real.cos_arccos h1 h2
  have hval : (1 - c) / 2 = Real.sin (Real.arccos c / 2) ^ 2 := by
    rw [sin_sq_half_eq, hcos]
  have hsin_nonneg : 0 ≤ Real.sin (Real.arccos c / 2) := by
    apply Real.sin_nonneg_of_nonneg_of_le_pi
    · linarith
    · linarith [Real.pi_pos]
  rw [hval, Real.sqrt_sq hsin_nonneg, Real.arcsin_sin (by linarith [Real.pi_pos]) (by linarith)]
  ring

/-- The haversine formula computes the great-circle distance
`R · arccos⟨u₁, u₂⟩`. -/
theorem haversine_eq_arccos (lat1 lon1 lat2 lon2 : ℝ) :
    haversine_distance lat1 lon1 lat2 lon2 =
      6371 * Real.arccos (inner (sphVec (radians lat1) (radians lon1))
        (sphVec (radians lat2) (radians lon2)) : ℝ) := by
  have hb := abs_le.mp (abs_inner_sphVec_le_one (radians lat1) (radians lon1)
    (radians lat2) (radians lon2))
  rw [haversine_distance, hav_a_eq_inner, two_arcsin_sqrt_eq_arccos hb.1 hb.2]

/-- Triangle inequality for the angle `arccos⟨·,·⟩` between unit vectors of a
real inner product space. -/
theorem arccos_inner_triangle {E : Type} [NormedAddCommGroup E]
    [InnerProductSpace ℝ E] (u v w : E)
    (hu : ‖u‖ = 1) (hv : ‖v‖ = 1) (hw : ‖w‖ = 1) :
    Real.arccos (inner u w : ℝ) ≤
      Real.arccos (inner u v : ℝ) + Real.arccos (inner v w : ℝ) := by
  have hauv := abs_real_inner_le_norm u v
  rw [hu, hv, mul_one] at hauv
  have havw := abs_real_inner_le_norm v w
  rw [hv, hw, mul_one] at havw
  obtain ⟨ha1, ha2⟩ := abs_le.mp hauv
  obtain ⟨hb1, hb2⟩ := abs_le.mp havw
  by_cases hcase : Real.pi ≤ Real.arccos (inner u v : ℝ) + Real.arccos (inner v w : ℝ)
  · exact le_trans (Real.arccos_le_pi _) hcase
  · push_neg at hcase
    have hkey : Real.cos (Real.arccos (inner u v : ℝ) + Real.arccos (inner v w : ℝ)) ≤
        (inner u w : ℝ) := by
      rw [Real.cos_add, Real.cos_arccos ha1 ha2, Real.cos_arccos hb1 hb2,
        Real.sin_arccos, Real.sin_arccos]
      have hp : ‖u - (inner u v : ℝ) • v‖ ^ 2 = 1 - (inner u v : ℝ) ^ 2 := by
        rw [norm_sub_sq_real, real_inner_smul_right, norm_smul, hu, hv]
        simp only [Real.norm_eq_abs, mul_one]
        rw [sq_abs]
        ring
      have hq : ‖w - (inner v w : ℝ) • v‖ ^ 2 = 1 - (inner v w : ℝ) ^ 2 := by
        rw [norm_sub_sq_real, real_inner_smul_right, norm_smul, hw, hv]
        simp only [Real.norm_eq_abs, mul_one]
        rw [sq_abs, real_inner_comm]
        ring
      have hvv : (inner v v : ℝ) = 1 := by
        rw [real_inner_self_eq_norm_sq, hv]; norm_num
      have hinner : (inner (u - (inner u v : ℝ) • v) (w - (inner v w : ℝ) • v) : ℝ) =
          (inner u w : ℝ) - (inner u v : ℝ) * (inner v w : ℝ) := by
        rw [inner_sub_left, inner_sub_right, inner_sub_right, real_inner_smul_left,
          real_inner_smul_left, real_inner_smul_right, real_inner_smul_right, hvv]
        rw [real_inner_comm v u]
        ring
      have hcs := abs_real_inner_le_norm (u - (inner u v : ℝ) • v)
        (w - (inner v w : ℝ) • v)
      have hnp : ‖u - (inner u v : ℝ) • v‖ = Real.sqrt (1 - (inner u v : ℝ) ^ 2) := by
        rw [← hp, Real.sqrt_sq (norm_nonneg _)]
      have hnq : ‖w - (inner v w : ℝ) • v‖ = Real.sqrt (1 - (inner v w : ℝ) ^ 2) := by
        rw [← hq, Real.sqrt_sq (norm_nonneg _)]
      rw [hinner, hnp, hnq] at hcs
      linarith [(abs_le.mp hcs).1]
    have hsum0 : 0 ≤ Real.arccos (inner u v : ℝ) + Real.arccos (inner v w : ℝ) :=
      add_nonneg (Real.arccos_nonneg _) (Real.arccos_nonneg _)
    have h1 : Real.arccos (Real.cos (Real.arccos (inner u v : ℝ) +
        Real.arccos (inner v w : ℝ))) =
        Real.arccos (inner u v : ℝ) + Real.arccos (inner v w : ℝ) :=
      Real.arccos_cos hsum0 hcase.le
    have h2 : Real.arccos (inner u w : ℝ) ≤
        Real.arccos (Real.cos (Real.arccos (inner u v : ℝ) +
          Real.arccos (inner v w : ℝ))) := by
      rw [Real.arccos, Real.arccos]
      have hmono := Real.monotone_arcsin hkey
      linarith
    linarith

/-- The haversine distance obeys the triangle inequality (for all real
coordinates, no range constraints needed). -/
theorem haversine_triangle (lat1 lon1 lat2 lon2 lat3 lon3 : ℝ) :
    haversine_distance lat1 lon1 lat3 lon3 ≤
      haversine_distance lat1 lon1 lat2 lon2 +
        haversine_distance lat2 lon2 lat3 lon3 := by
  rw [haversine_eq_arccos, haversine_eq_arccos, haversine_eq_arccos]
  have ht := arccos_inner_triangle (sphVec (radians lat1) (radians lon1))
    (sphVec (radians lat2) (radians lon2)) (sphVec (radians lat3) (radians lon3))
    (norm_sphVec _ _) (norm_sphVec _ _) (norm_sphVec _ _)
  nlinarith [ht]

/-- The haversine distance is symmetric in its two argument points. -/
theorem haversine_symm (lat1 lon1 lat2 lon2 : ℝ) :
    haversine_distance lat1 lon1 lat2 lon2 = haversine_distance lat2 lon2 lat1 lon1 := by
  rw [haversine_eq_arccos, haversine_eq_arccos, real_inner_comm]

theorem radians_zero : radians 0 = 0 := by rw [radians]; ring

theorem radians_180 : radians 180 = Real.pi := by rw [radians]; ring

theorem radians_neg180 : radians (-180) = -Real.pi := by rw [radians]; ring

theorem cos_radians_nonneg {x : ℝ} (h1 : -90 ≤ x) (h2 : x ≤ 90) :
    0 ≤ Real.cos (radians x) := by
  have hlo := radians_le_radians h1
  rw [radians_neg90] at hlo
  have hhi := radians_le_radians h2
  rw [radians_90] at hhi
  exact Real.cos_nonneg_of_mem_Icc ⟨hlo, hhi⟩

theorem cos_radians_eq_zero_iff {x : ℝ} (h1 : -90 ≤ x) (h2 : x ≤ 90) :
    Real.cos (radians x) = 0 ↔ x = 90 ∨ x = -90 := by
  have hlo := radians_le_radians h1
  rw [radians_neg90] at hlo
  have hhi := radians_le_radians h2
  rw [radians_90] at hhi
  constructor
  · intro hc
    have hsq := Real.sin_sq_add_cos_sq (radians x)
    rw [hc] at hsq
    have hs1 : Real.sin (radians x) ^ 2 = 1 := by nlinarith [hsq]
    have hfac : (Real.sin (radians x) - 1) * (Real.sin (radians x) + 1) = 0 := by
      nlinarith [hs1]
    have hmem1 : radians x ∈ Set.Icc (-(Real.pi/2)) (Real.pi/2) := ⟨hlo, hhi⟩
    rcases mul_eq_zero.mp hfac with hf | hf
    · left
      have hsin : Real.sin (radians x) = Real.sin (Real.pi/2) := by
        rw [Real.sin_pi_div_two]; linarith
      have hmem2 : Real.pi/2 ∈ Set.Icc (-(Real.pi/2)) (Real.pi/2) :=
        ⟨by linarith [Real.pi_pos], le_refl _⟩
      have hx := Real.injOn_sin hmem1 hmem2 hsin
      exact radians_inj (by rw [hx, radians_90])
    · right
      have hsin : Real.sin (radians x) = Real.sin (-(Real.pi/2)) := by
        rw [Real.sin_neg, Real.sin_pi_div_two]; linarith
      have hmem2 : -(Real.pi/2) ∈ Set.Icc (-(Real.pi/2)) (Real.pi/2) :=
        ⟨le_refl _, by linarith [Real.pi_pos]⟩
      have hx := Real.injOn_sin hmem1 hmem2 hsin
      exact radians_inj (by rw [hx, radians_neg90])
  · rintro (hx | hx) <;> subst hx
    · rw [radians_90, Real.cos_pi_div_two]
    · rw [radians_neg90, Real.cos_neg, Real.cos_pi_div_two]

theorem sin_half_lat_eq_zero_iff {x y : ℝ}
    (hx1 : -90 ≤ x) (hx2 : x ≤ 90) (hy1 : -90 ≤ y) (hy2 : y ≤ 90) :
    Real.sin ((radians y - radians x) / 2) = 0 ↔ x = y := by
  have hxlo := radians_le_radians hx1
  rw [radians_neg90] at hxlo
  have hxhi := radians_le_radians hx2
  rw [radians_90] at hxhi
  have hylo := radians_le_radians hy1
  rw [radians_neg90] at hylo
  have hyhi := radians_le_radians hy2
  rw [radians_90] at hyhi
  constructor
  · intro hs
    have hξ1 : -Real.pi < (radians y - radians x) / 2 := by linarith [Real.pi_pos]
    have hξ2 : (radians y - radians x) / 2 < Real.pi := by linarith [Real.pi_pos]
    have h0 := (Real.sin_eq_zero_iff_of_lt_of_lt hξ1 hξ2).mp hs
    exact radians_inj (by linarith)
  · intro hxy
    subst hxy
    simp

theorem sin_half_lon_eq_zero_iff {x y : ℝ}
    (hx1 : -180 ≤ x) (hx2 : x ≤ 180) (hy1 : -180 ≤ y) (hy2 : y ≤ 180) :
    Real.sin ((radians y - radians x) / 2) = 0 ↔
      (x = y ∨ x - y = 360 ∨ y - x = 360) := by
  have hd : (radians y - radians x) / 2 = radians ((y - x) / 2) := by
    rw [radians, radians, radians]; ring
  rw [hd]
  have hin1 : -180 ≤ (y - x) / 2 := by linarith
  have hin2 : (y - x) / 2 ≤ 180 := by linarith
  have hb1 : -Real.pi ≤ radians ((y - x) / 2) := by
    have hr := radians_le_radians hin1
    rwa [radians_neg180] at hr
  have hb2 : radians ((y - x) / 2) ≤ Real.pi := by
    have hr := radians_le_radians hin2
    rwa [radians_180] at hr
  constructor
  · intro hs
    obtain ⟨n, hn⟩ := Real.sin_eq_zero_iff.mp hs
    have hnle : (n : ℝ) * Real.pi ≤ Real.pi := by rw [hn]; exact hb2
    have hnge : -Real.pi ≤ (n : ℝ) * Real.pi := by rw [hn]; exact hb1
    have hn1 : (n : ℝ) ≤ 1 := by
      by_contra hcon
      push_neg at hcon
      nlinarith [Real.pi_pos]
    have hn2 : (-1 : ℝ) ≤ (n : ℝ) := by
      by_contra hcon
      push_neg at hcon
      nlinarith [Real.pi_pos]
    have hn1' : n ≤ 1 := by exact_mod_cast hn1
    have hn2' : -1 ≤ n := by exact_mod_cast hn2
    interval_cases n
    · right; left
      have hval : radians ((y - x) / 2) = radians (-180) := by
        rw [← hn, radians_neg180]; push_cast; ring
      have h2 := radians_inj hval
      linarith
    · left
      have hval : radians ((y - x) / 2) = radians 0 := by
        rw [← hn, radians_zero]; push_cast; ring
      have h2 := radians_inj hval
      linarith
    · right; right
      have hval : radians ((y - x) / 2) = radians 180 := by
        rw [← hn, radians_180]; push_cast; ring
      have h2 := radians_inj hval
      linarith
  · rintro (hxy | hxy | hxy)
    · have h2 : (y - x) / 2 = 0 := by linarith
      rw [h2, radians_zero, Real.sin_zero]
    · have h2 : (y - x) / 2 = -180 := by linarith
      rw [h2, radians_neg180, Real.sin_neg, Real.sin_pi, neg_zero]
    · have h2 : (y - x) / 2 = 180 := by linarith
      rw [h2, radians_180, Real.sin_pi]

theorem hav_a_nonneg {lat1 lon1 lat2 lon2 : ℝ}
    (h1a : -90 ≤ lat1) (h1b : lat1 ≤ 90) (h2a : -90 ≤ lat2) (h2b : lat2 ≤ 90) :
    0 ≤ hav_a lat1 lon1 lat2 lon2 := by
  rw [hav_a]
  have hc1 := cos_radians_nonneg h1a h1b
  have hc2 := cos_radians_nonneg h2a h2b
  have hm : 0 ≤ Real.cos (radians lat1) * Real.cos (radians lat2) *
      Real.sin ((radians lon2 - radians lon1) / 2) ^ 2 :=
    mul_nonneg (mul_nonneg hc1 hc2) (sq_nonneg _)
  exact add_nonneg (sq_nonneg _) hm

theorem hav_a_eq_zero_iff {lat1 lon1 lat2 lon2 : ℝ}
    (h1a : -90 ≤ lat1) (h1b : lat1 ≤ 90) (h2a : -90 ≤ lat2) (h2b : lat2 ≤ 90)
    (h3a : -180 ≤ lon1) (h3b : lon1 ≤ 180) (h4a : -180 ≤ lon2) (h4b : lon2 ≤ 180) :
    hav_a lat1 lon1 lat2 lon2 = 0 ↔ SamePoint lat1 lon1 lat2 lon2 := by
  rw [hav_a, SamePoint]
  have hc1 := cos_radians_nonneg h1a h1b
  have hc2 := cos_radians_nonneg h2a h2b
  have hm : 0 ≤ Real.cos (radians lat1) * Real.cos (radians lat2) *
      Real.sin ((radians lon2 - radians lon1) / 2) ^ 2 :=
    mul_nonneg (mul_nonneg hc1 hc2) (sq_nonneg _)
  rw [add_eq_zero_iff_of_nonneg (sq_nonneg _) hm]
  constructor
  · rintro ⟨hA, hB⟩
    have hlat : lat1 = lat2 :=
      (sin_half_lat_eq_zero_iff h1a h1b h2a h2b).mp (sq_eq_zero_iff.mp hA)
    refine ⟨hlat, ?_⟩
    rcases mul_eq_zero.mp hB with hB1 | hB2
    · rcases mul_eq_zero.mp hB1 with hcz | hcz
      · rcases (cos_radians_eq_zero_iff h1a h1b).mp hcz with hx | hx
        · exact Or.inl hx
        · exact Or.inr (Or.inl hx)
      · rcases (cos_radians_eq_zero_iff h2a h2b).mp hcz with hx | hx
        · exact Or.inl (hlat.trans hx)
        · exact Or.inr (Or.inl (hlat.trans hx))
    · rcases (sin_half_lon_eq_zero_iff h3a h3b h4a h4b).mp (sq_eq_zero_iff.mp hB2)
        with hx | hx | hx
      · exact Or.inr (Or.inr (Or.inl hx))
      · exact Or.inr (Or.inr (Or.inr (Or.inl hx)))
      · exact Or.inr (Or.inr (Or.inr (Or.inr hx)))
  · rintro ⟨hlat, hrest⟩
    constructor
    · rw [sq_eq_zero_iff]
      exact (sin_half_lat_eq_zero_iff h1a h1b h2a h2b).mpr hlat
    · rcases hrest with hx | hx | hx | hx | hx
      · rw [(cos_radians_eq_zero_iff h1a h1b).mpr (Or.inl hx)]; ring
      · rw [(cos_radians_eq_zero_iff h1a h1b).mpr (Or.inr hx)]; ring
      · rw [(sin_half_lon_eq_zero_iff h3a h3b h4a h4b).mpr (Or.inl hx)]; ring
      · rw [(sin_half_lon_eq_zero_iff h3a h3b h4a h4b).mpr (Or.inr (Or.inl hx))]; ring
      · rw [(sin_half_lon_eq_zero_iff h3a h3b h4a h4b).mpr (Or.inr (Or.inr hx))]; ring

theorem haversine_eq_zero_iff {lat1 lon1 lat2 lon2 : ℝ}
    (h1a : -90 ≤ lat1) (h1b : lat1 ≤ 90) (h2a : -90 ≤ lat2) (h2b : lat2 ≤ 90)
    (h3a : -180 ≤ lon1) (h3b : lon1 ≤ 180) (h4a : -180 ≤ lon2) (h4b : lon2 ≤ 180) :
    haversine_distance lat1 lon1 lat2 lon2 = 0 ↔ SamePoint lat1 lon1 lat2 lon2 := by
  rw [haversine_distance]
  have ha0 := @hav_a_nonneg lat1 lon1 lat2 lon2 h1a h1b h2a h2b
  constructor
  · intro h0
    have h1 : Real.arcsin (Real.sqrt (hav_a lat1 lon1 lat2 lon2)) = 0 := by linarith
    have h2 : Real.sqrt (hav_a lat1 lon1 lat2 lon2) = 0 :=
      Real.arcsin_eq_zero_iff.mp h1
    have h3 : hav_a lat1 lon1 lat2 lon2 ≤ 0 := Real.sqrt_eq_zero'.mp h2
    exact (hav_a_eq_zero_iff h1a h1b h2a h2b h3a h3b h4a h4b).mp (le_antisymm h3 ha0)
  · intro hsp
    rw [(hav_a_eq_zero_iff h1a h1b h2a h2b h3a h3b h4a h4b).mpr hsp,
      Real.sqrt_zero, Real.arcsin_zero]
    ring

/-- C7 counterexample: at the north pole the haversine distance between the
coordinate pairs (90, 0) and (90, 10) is zero although the two latitude/
longitude pairs do not coincide — "zero iff the points coincide" fails when
points are read as coordinate pairs. -/
theorem C7_counterexample_pole :
    haversine_distance 90 0 90 10 = 0 ∧ ¬(((90:ℝ), (0:ℝ)) = ((90:ℝ), (10:ℝ))) := by
  constructor
  · exact (haversine_eq_zero_iff (by norm_num) (by norm_num) (by norm_num) (by norm_num)
      (by norm_num) (by norm_num) (by norm_num) (by norm_num)).mpr ⟨rfl, Or.inl rfl⟩
  · intro hc
    have h2 := congrArg Prod.snd hc
    norm_num at h2

/-- C7 (amended): on in-range coordinates `haversine_distance` is symmetric,
vanishes exactly when its two coordinate pairs denote the same point of the
sphere (equal coordinates, or a common pole, or equal latitudes with
longitudes differing by a full 360° turn), obeys the triangle inequality,
and equals the reference formula `2R·asin(√(sin²(Δlat/2) +
cos lat1 · cos lat2 · sin²(Δlon/2)))` with `R = 6371` km. -/
theorem C7_haversine_contract (lat1 lon1 lat2 lon2 lat3 lon3 : ℝ)
    (h1a : -90 ≤ lat1) (h1b : lat1 ≤ 90) (h2a : -90 ≤ lat2) (h2b : lat2 ≤ 90)
    (h3a : -180 ≤ lon1) (h3b : lon1 ≤ 180) (h4a : -180 ≤ lon2) (h4b : lon2 ≤ 180) :
    haversine_distance lat1 lon1 lat2 lon2 = haversine_distance lat2 lon2 lat1 lon1 ∧
    (haversine_distance lat1 lon1 lat2 lon2 = 0 ↔ SamePoint lat1 lon1 lat2 lon2) ∧
    (haversine_distance lat1 lon1 lat3 lon3 ≤
      haversine_distance lat1 lon1 lat2 lon2 +
        haversine_distance lat2 lon2 lat3 lon3) ∧
    haversine_distance lat1 lon1 lat2 lon2 =
      2 * 6371 * Real.arcsin (Real.sqrt
        (Real.sin ((radians lat2 - radians lat1) / 2) ^ 2 +
          Real.cos (radians lat1) * Real.cos (radians lat2) *
            Real.sin ((radians lon2 - radians lon1) / 2) ^ 2)) :=
  ⟨haversine_symm lat1 lon1 lat2 lon2,
   haversine_eq_zero_iff h1a h1b h2a h2b h3a h3b h4a h4b,
   haversine_triangle lat1 lon1 lat2 lon2 lat3 lon3,
   by rw [haversine_distance, hav_a]; ring⟩

/-- Witness for the amended C7 at concrete in-range coordinates. -/
theorem C7_haversine_contract_witness :
    haversine_distance 1 2 3 4 = haversine_distance 3 4 1 2 ∧
    (haversine_distance 1 2 3 4 = 0 ↔ SamePoint 1 2 3 4) ∧
    (haversine_distance 1 2 5 6 ≤
      haversine_distance 1 2 3 4 + haversine_distance 3 4 5 6) ∧
    haversine_distance 1 2 3 4 =
      2 * 6371 * Real.arcsin (Real.sqrt
        (Real.sin ((radians 3 - radians 1) / 2) ^ 2 +
          Real.cos (radians 1) * Real.cos (radians 3) *
            Real.sin ((radians 4 - radians 2) / 2) ^ 2)) :=
  C7_haversine_contract 1 2 3 4 5 6 (by norm_num) (by norm_num) (by norm_num)
    (by norm_num) (by norm_num) (by norm_num) (by norm_num) (by norm_num)

end SiteAnalysis
